import Mathlib

/-!
# ali-apigateway-sdk: request signing and request lifecycle

A shallow embedding of `sign.go` and `client.go`, and the properties of the specification
settled on it.

Conventions of the embedding.

* Go `string` and `[]byte` values are `String`s (text that is valid UTF-8); on such text
  byte-wise comparison and code-point comparison agree, so `sort.Strings` is the sort by
  `strLE`.
* The `fasthttp` request is the record `Request`: its header store (`RequestHeader`), the
  path and query arguments of its parsed URI, and its body (`none` when `Body()` is nil).
  The header store follows fasthttp with its default settings: `Set` normalises the name
  and replaces carriage returns and line feeds of the value by spaces, `Content-Type`,
  `User-Agent` and `Host` live in fields of their own, `Peek` normalises the name it is
  asked for, `PeekKeys` lists the names of the plain entries.
* A function that writes to `req *fasthttp.Request` returns the new request next to its
  Go result.
* Values that come from outside the program (clock, random source, hashes, the case
  tables of package `unicode`, the JSON codec, the URI parser and the transport) are the
  fields of `Env`.
* The log lines of `Do` and the invocation of the transport are recorded, in order, as
  the `trace` of an `Outcome`.
-/

namespace Sdk

/-! ## Go strings -/

/-- Byte-wise lexicographic order on strings, the order of `sort.Strings`. -/
def strLE (a b : String) : Prop := a.data ≤ b.data

instance strLE.decidable : DecidableRel strLE :=
  fun a b => inferInstanceAs (Decidable (a.data ≤ b.data))

instance strLE.isTotal : IsTotal String strLE :=
  ⟨fun a b => le_total a.data b.data⟩

instance strLE.isTrans : IsTrans String strLE :=
  ⟨fun _ _ _ h₁ h₂ => @le_trans (List Char) _ _ _ _ h₁ h₂⟩

instance strLE.isAntisymm : IsAntisymm String strLE :=
  ⟨fun _ _ h₁ h₂ => String.ext (@le_antisymm (List Char) _ _ _ h₁ h₂)⟩

/-- Go `sort.Strings`: the ascending rearrangement of the slice. -/
def sortStrings (l : List String) : List String := List.insertionSort strLE l

/-- Go `unicode.ToUpper`: a rune up to U+007F is mapped on the spot (`a`..`z` to `A`..`Z`,
any other unchanged), a rune above it by the case tables of package `unicode`, which are
the argument `unicodeUpper`. -/
def upperRune (unicodeUpper : Char → Char) (c : Char) : Char :=
  if c.toNat < 128 then c.toUpper else unicodeUpper c

/-- Go `strings.ToUpper`: every rune of the string is mapped by `unicode.ToUpper`. -/
def ToUpper (unicodeUpper : Char → Char) (s : String) : String :=
  ⟨s.data.map (upperRune unicodeUpper)⟩

/-- Go `strings.HasPrefix s p`. -/
def HasPrefix (s p : String) : Bool := p.data.isPrefixOf s.data

/-- Go `strings.Join elems sep`. -/
def Join : List String → String → String
  | [], _ => ""
  | [a], _ => a
  | a :: b :: rest, sep => a ++ sep ++ Join (b :: rest) sep

/-- Concatenation of the pieces written to a `strings.Builder`. -/
def concat : List String → String
  | [] => ""
  | a :: rest => a ++ concat rest

/-! ## `net/http` header-name canonicalisation -/

/-- Go `validHeaderFieldByte`: the token characters of RFC 7230. -/
def validHeaderFieldByte (c : Char) : Bool :=
  c.isAlphanum || decide (c.toNat ∈ [33, 35, 36, 37, 38, 39, 42, 43, 45, 46, 94, 95, 96, 124, 126])

/-- The rewriting loop of Go `canonicalMIMEHeaderKey`: upper case at the start and after
each dash, lower case elsewhere. -/
def canonicalBytes : Bool → List Char → List Char
  | _, [] => []
  | upper, c :: cs =>
    let c1 := if upper then c.toUpper else c.toLower
    c1 :: canonicalBytes (c1 == '-') cs

/-- Go `http.CanonicalHeaderKey`: a name with a byte that is no token character is
returned unchanged, any other name is title-cased. -/
def CanonicalHeaderKey (s : String) : String :=
  if s.data.all validHeaderFieldByte then ⟨canonicalBytes true s.data⟩ else s

/-! ## Constants of `sign.go` -/

def HTTPHeaderAccept : String := "Accept"
def HTTPHeaderContentMD5 : String := "Content-MD5"
def HTTPHeaderContentType : String := "Content-Type"
def HTTPHeaderDate : String := "Date"
def HTTPHeaderUserAgent : String := "User-Agent"

def HTTPHeaderCAKey : String := "X-Ca-Key"
def HTTPHeaderCANonce : String := "X-Ca-Nonce"
def HTTPHeaderCASignature : String := "X-Ca-Signature"
def HTTPHeaderCASignatureHeaders : String := "X-Ca-Signature-Headers"
def HTTPHeaderCASignatureMethod : String := "X-Ca-Signature-Method"
def HTTPHeaderCATimestamp : String := "X-Ca-Timestamp"

def HTTPContentTypeForm : String := "application/x-www-form-urlencoded"
def HTTPContentTypeMultipartForm : String := "multipart/form-data"
def HTTPContentTypeMultipartFormWithBoundary : String := "multipart/form-data; boundary="
def HTTPContentTypeStream : String := "application/octet-stream"
def HTTPContentTypeJson : String := "application/json"
def HTTPContentTypeXml : String := "application/xml"
def HTTPContentTypeText : String := "text/plain"

def defaultUserAgent : String := "Go-Aliyun-Sign-Client"
def defaultAccept : String := "*/*"
def defaultSignMethod : String := "HmacSHA256"
def defaultLF : String := "\n"
def defaultSep : String := ","

/-- The package variable `signHeaders`: the set of header names that are signed. -/
def signHeaders : List String :=
  [CanonicalHeaderKey HTTPHeaderCAKey,
   CanonicalHeaderKey HTTPHeaderCANonce,
   CanonicalHeaderKey HTTPHeaderCASignatureMethod,
   CanonicalHeaderKey HTTPHeaderCATimestamp]

/-! ## The `fasthttp` request -/

/-- The `argsKV` lookup of fasthttp (`peekArgBytes`, `peekArgStr`): the value of the first
entry stored under `key`, nil (here the empty string) when there is none. -/
def peekArg : List (String × String) → String → String
  | [], _ => ""
  | (k, v) :: rest, key => if k = key then v else peekArg rest key

/-- The `argsKV` update of fasthttp (`setArgBytes`): overwrite the first entry stored under
`key`, append a new entry when there is none. -/
def setArg : List (String × String) → String → String → List (String × String)
  | [], key, value => [(key, value)]
  | (k, v) :: rest, key, value =>
    if k = key then (k, value) :: rest else (k, v) :: setArg rest key value

/-- The tail loop of fasthttp `normalizeHeaderKey`: the byte after a dash is upper-cased,
every other byte is lower-cased. -/
def normalizeTail : List Char → List Char
  | [] => []
  | [c] => [if c = '-' then c else c.toLower]
  | c :: d :: rest =>
    if c = '-' then c :: d.toUpper :: normalizeTail rest
    else c.toLower :: normalizeTail (d :: rest)

/-- The fasthttp `normalizeHeaderKey` (header-name normalisation is enabled on a request
by default). -/
def normalizeHeaderKey (s : String) : String :=
  match s.data with
  | [] => s
  | c :: cs => ⟨c.toUpper :: normalizeTail cs⟩

/-- The fasthttp `removeNewLines`, applied by `Set` to every value: carriage returns and
line feeds become spaces. -/
def removeNewLines (s : String) : String :=
  ⟨s.data.map fun c => if c = '\r' ∨ c = '\n' then ' ' else c⟩

/-- The part of `fasthttp.RequestHeader` this program touches. `Content-Type`, `User-Agent`
and `Host` have their own fields; every other header is an entry of `h`. (`Content-Length`,
`Cookie` and `Trailer`, which the program neither reads nor writes, are left out.) -/
structure RequestHeader where
  method : String
  contentType : String
  userAgent : String
  host : String
  connectionClose : Bool
  h : List (String × String)
deriving DecidableEq, Repr

namespace RequestHeader

/-- A header as `fasthttp.AcquireRequest` hands it out. -/
def empty : RequestHeader :=
  { method := "", contentType := "", userAgent := "", host := "", connectionClose := false, h := [] }

/-- The accessor `Method()`: an unset method reads as `GET`. -/
def Method (hd : RequestHeader) : String :=
  if hd.method = "" then "GET" else hd.method

def SetMethod (hd : RequestHeader) (method : String) : RequestHeader :=
  { hd with method := method }

def SetContentType (hd : RequestHeader) (contentType : String) : RequestHeader :=
  { hd with contentType := contentType }

/-- The method `SetCanonical`: the special headers go to their fields, the rest to `h`.
(`Content-Length` and `Transfer-Encoding` are managed by fasthttp and ignored here;
`Cookie` and `Trailer` go to stores of their own, which are left out.) -/
def SetCanonical (hd : RequestHeader) (key value : String) : RequestHeader :=
  if key = "Content-Type" then { hd with contentType := value }
  else if key = "User-Agent" then { hd with userAgent := value }
  else if key = "Host" then { hd with host := value }
  else if key = "Content-Length" ∨ key = "Transfer-Encoding" then hd
  else if key = "Cookie" ∨ key = "Trailer" then hd
  else if key = "Connection" then
    if value = "close" then { hd with connectionClose := true }
    else { hd with connectionClose := false, h := setArg hd.h key value }
  else { hd with h := setArg hd.h key value }

/-- The method `Set(key, value)`. -/
def Set (hd : RequestHeader) (key value : String) : RequestHeader :=
  hd.SetCanonical (normalizeHeaderKey key) (removeNewLines value)

/-- The method `Peek(key)`. -/
def Peek (hd : RequestHeader) (key : String) : String :=
  let k := normalizeHeaderKey key
  if k = "Host" then hd.host
  else if k = "Content-Type" then hd.contentType
  else if k = "User-Agent" then hd.userAgent
  else if k = "Connection" then
    if hd.connectionClose then "close" else peekArg hd.h k
  else peekArg hd.h k

/-- The method `PeekKeys()`: the names stored in `h`, in storage order. -/
def PeekKeys (hd : RequestHeader) : List String := hd.h.map Prod.fst

end RequestHeader

/-- The part of `fasthttp.Request` this program touches: the header, the path and the
query arguments of the parsed URI, and the body. -/
structure Request where
  Header : RequestHeader
  path : String
  queryArgs : List (String × String)
  body : Option String
deriving DecidableEq, Repr

namespace Request

/-- A request as `fasthttp.AcquireRequest` hands it out. -/
def empty : Request :=
  { Header := RequestHeader.empty, path := "/", queryArgs := [], body := none }

def SetBody (req : Request) (b : String) : Request := { req with body := some b }

def setHeader (req : Request) (key value : String) : Request :=
  { req with Header := req.Header.Set key value }

end Request

/-! ## Values from outside the program -/

/-- A Go `error` value: made by `errors.New` here, or handed back by a library. -/
inductive GoError where
  | errorsNew (msg : String)
  | library (descr : String)
deriving DecidableEq, Repr

/-- A non-nil Go `interface{}` request body, by dynamic type: a `string`, a
`bytes.Buffer` (its unread bytes), or a value of any other type. -/
inductive GoValue where
  | str (s : String)
  | buffer (unread : String)
  | other (descr : String)
deriving DecidableEq, Repr

/-- What `json.Unmarshal` stores in an `interface{}` field; `null` is the nil interface,
`number` carries the bits of the `float64`. -/
inductive JsonValue where
  | null
  | bool (b : Bool)
  | number (bits : Nat)
  | string (s : String)
  | array (items : List JsonValue)
  | object (fields : List (String × JsonValue))

/-- The struct `ApiResult`. -/
structure ApiResult where
  Code : String
  Message : String
  Data : JsonValue
  Success : Bool

/-- What the transport hands back: `fasthttp.Response`, status code and body. -/
structure Response where
  statusCode : Nat
  body : String
deriving DecidableEq, Repr

/-- The `context.Context` a caller may attach to a call. -/
structure Context where
  id : Nat
deriving DecidableEq, Repr

/-- Everything the program obtains from its surroundings during one call. -/
structure Env where
  /-- Result of `uuid.NewRandom()` rendered by `String()`, or its error. -/
  uuidNewRandom : Except GoError String
  /-- Result of `strconv.FormatInt(time.Now().UnixNano() / 1000000, 10)`. -/
  timeMillis : String
  /-- Result of `time.Now().UTC().Format(http.TimeFormat)`. -/
  gmtDate : String
  /-- The case tables of package `unicode`: `unicode.ToUpper` on a rune above U+007F. -/
  unicodeUpper : Char → Char
  /-- Base64 of the MD5 digest of the bytes. -/
  md5Base64 : String → String
  /-- Base64 of the HMAC-SHA256 of the bytes under the key. -/
  hmacBase64 : String → String → String
  /-- Go `json.Marshal` on a request body (`none` is the nil interface). -/
  marshalBody : Option GoValue → Except GoError String
  /-- Go `json.Unmarshal` of response bytes into an `ApiResult`. -/
  unmarshal : String → Except GoError ApiResult
  /-- Go `json.Marshal` on a decoded `data` value. -/
  marshalData : JsonValue → Except GoError String
  /-- Path and query arguments fasthttp parses out of a request URI. -/
  parseURI : String → String × List (String × String)
  /-- The transport `Client.Do`. -/
  send : Request → Except GoError Response
  /-- The duration `end.Sub(start)` of the call, in nanoseconds. -/
  elapsed : Int

/-! ## `sign.go` -/

/-- The function `currentTimeMillis`. -/
def currentTimeMillis (env : Env) : String := env.timeMillis

/-- The function `currentGMTDate`. -/
def currentGMTDate (env : Env) : String := env.gmtDate

/-- The function `uuid4`: a failure of the random source gives the empty string. -/
def uuid4 (env : Env) : String :=
  match env.uuidNewRandom with
  | .error _ => ""
  | .ok u => u

/-- The function `hmacSHA256`. -/
def hmacSHA256 (env : Env) (b key : String) : String := env.hmacBase64 b key

/-- The function `xmd5`. -/
def xmd5 (env : Env) (b : String) : String := env.md5Base64 b

/-- The function `getSortKeys`: with `needFormat` the names are canonicalised first. -/
def getSortKeys (m : List String) (needFormat : Bool) : List String :=
  let keys := m.map fun item => if needFormat then CanonicalHeaderKey item else item
  sortStrings keys

/-- The function `buildParamStringToSign`. -/
def buildParamStringToSign (req : Request) : String :=
  let queryKeys := req.queryArgs.map Prod.fst
  let paramKeys := getSortKeys queryKeys false
  let paramList := paramKeys.map fun key =>
    let value := peekArg req.queryArgs key
    if value = "" then key else key ++ "=" ++ value
  let params := Join paramList "&"
  let params := if params ≠ "" then "?" ++ params else params
  req.path ++ params

/-- The loop of `buildHeaderStringToSign`: the signed names met so far and the lines
written to the builder. -/
def signLoop (hd : RequestHeader) : List String → List String × List String
  | [] => ([], [])
  | key :: rest =>
    let r := signLoop hd rest
    if key ∈ signHeaders then
      (key :: r.1, (key ++ ":" ++ hd.Peek key ++ defaultLF) :: r.2)
    else r

/-- The function `buildHeaderStringToSign`: the header block, and the request with
`X-Ca-Signature-Headers` written. -/
def buildHeaderStringToSign (req : Request) : String × Request :=
  let headerAllKey := req.Header.PeekKeys
  let headerKeys := getSortKeys headerAllKey true
  let r := signLoop req.Header headerKeys
  let signHeaderKeys := r.1
  (concat r.2, req.setHeader HTTPHeaderCASignatureHeaders (Join signHeaderKeys defaultSep))

/-- The function `buildStringToSign`. -/
def buildStringToSign (env : Env) (req : Request) : String × Request :=
  let s1 := ToUpper env.unicodeUpper req.Header.Method ++ defaultLF
  let s2 := req.Header.Peek HTTPHeaderAccept ++ defaultLF
  let s3 := req.Header.Peek HTTPHeaderContentMD5 ++ defaultLF
  let s4 := req.Header.Peek HTTPHeaderContentType ++ defaultLF
  let s5 := req.Header.Peek HTTPHeaderDate ++ defaultLF
  let hs := buildHeaderStringToSign req
  let paramStr := buildParamStringToSign hs.2
  (concat [s1, s2, s3, s4, s5, hs.1, paramStr], hs.2)

/-- The function `initialBasicHeader`, lines 212 to 218: the six unconditional writes. -/
def fixedHeaders (env : Env) (req : Request) (ak contentType : String) : Request :=
  let req := req.setHeader HTTPHeaderContentType contentType
  let req := req.setHeader "Connection" "Keep-Alive"
  let req := req.setHeader HTTPHeaderCAKey ak
  let req := req.setHeader HTTPHeaderCANonce (uuid4 env)
  let req := req.setHeader HTTPHeaderCASignatureMethod defaultSignMethod
  req.setHeader HTTPHeaderCATimestamp (currentTimeMillis env)

/-- The function `initialBasicHeader`, lines 220 to 233: the defaults for `Accept`, `Date`
and `User-Agent`. -/
def defaultHeaders (env : Env) (req : Request) : Request :=
  let httpHeaderAccept := req.Header.Peek HTTPHeaderAccept
  let req := if httpHeaderAccept = "" then req.setHeader HTTPHeaderAccept defaultAccept else req
  let httpHeaderDate := req.Header.Peek HTTPHeaderDate
  let req := if httpHeaderDate = "" then req.setHeader HTTPHeaderDate (currentGMTDate env) else req
  let httpHeaderUserAgent := req.Header.Peek HTTPHeaderUserAgent
  if httpHeaderUserAgent = "" then req.setHeader HTTPHeaderUserAgent defaultUserAgent else req

/-- The function `initialBasicHeader`, lines 235 to 239: the content digest. -/
def digestHeader (env : Env) (req : Request) : Request :=
  let ct := req.Header.Peek HTTPHeaderContentType
  match req.body with
  | some b =>
    if ct ≠ HTTPContentTypeForm ∧ ¬ HasPrefix ct HTTPContentTypeMultipartFormWithBoundary = true
    then req.setHeader HTTPHeaderContentMD5 (xmd5 env b)
    else req
  | none => req

/-- The function `initialBasicHeader`, lines 241 to 243: the signature. -/
def signatureHeader (env : Env) (req : Request) (sk : String) : Request :=
  let stringToSign := buildStringToSign env req
  stringToSign.2.setHeader HTTPHeaderCASignature (hmacSHA256 env stringToSign.1 sk)

/-- The function `initialBasicHeader`: its four blocks in the order of the source. -/
def initialBasicHeader (env : Env) (req : Request) (ak sk contentType : String) : Request :=
  let req := fixedHeaders env req ak contentType
  let req := defaultHeaders env req
  let req := digestHeader env req
  signatureHeader env req sk

/-! ## `client.go` -/

/-- The struct `ApiReq` with the embedded `ApiGatewayClient`; `Body = none` is the nil
interface, `ctx = none` the nil context. -/
structure ApiReq where
  ctx : Option Context
  Path : String
  Body : Option GoValue
  Method : String
  ContentType : String
  Host : String
  AppKey : String
  AppSecret : String
deriving DecidableEq, Repr

/-- What one call does to the outside, in order: the three log lines of `Do` and the
invocation of the transport. `start` is logged at level info, `failed` and `success` at
level error; `withCtx` tells the `logc` line from the `logx` line. -/
inductive Event where
  | start (withCtx : Bool) (method path : String) (body : Option GoValue)
  | failed (withCtx : Bool) (method path : String) (milliseconds : Int) (err : GoError)
  | success (withCtx : Bool) (method path : String) (milliseconds : Int) (data : String)
  | transport (req : Request)
deriving DecidableEq, Repr

/-- The results `([]byte, error)` of `doApi` and `Do`, with the events of the call. -/
structure Outcome where
  data : Option String
  err : Option GoError
  trace : List Event
deriving DecidableEq, Repr

/-- The method `setReqUri`. -/
def setReqUri (a : ApiReq) : String := a.Host ++ a.Path

/-- The method `SetRequestURI` followed by the parse `URI()` performs. -/
def SetRequestURI (env : Env) (req : Request) (uri : String) : Request :=
  { req with path := (env.parseURI uri).1, queryArgs := (env.parseURI uri).2 }

/-- The method `setBody`: the request with the body set, and the error. -/
def setBody (env : Env) (req : Request) (contentType : String) (body : Option GoValue) :
    Request × Option GoError :=
  if contentType = HTTPContentTypeJson then
    let marshal := match env.marshalBody body with
      | .ok b => b
      | .error _ => ""
    (req.SetBody marshal, none)
  else if contentType = HTTPContentTypeForm then
    match body with
    | some (.str strBody) => (req.SetBody strBody, none)
    | _ => (req, some (.errorsNew
        ("when contenType is " ++ contentType ++ ", body content type must be str")))
  else if HasPrefix contentType HTTPContentTypeMultipartForm then
    match body with
    | some (.buffer bufferBody) => (req.SetBody bufferBody, none)
    | _ => (req, some (.errorsNew
        ("when contenType is " ++ contentType ++ ", body content type must be buffer")))
  else
    (req, some (.errorsNew ("content type not support: " ++ contentType)))

/-- The method `doApi` on the assembled request. -/
def doApi (env : Env) (req : Request) : Outcome :=
  match env.send req with
  | .error err => { data := none, err := some err, trace := [.transport req] }
  | .ok resp =>
    match env.unmarshal resp.body with
    | .error err => { data := none, err := some err, trace := [.transport req] }
    | .ok res =>
      if res.Code ≠ "200" then
        { data := none, err := some (.errorsNew res.Message), trace := [.transport req] }
      else
        match res.Data with
        | .null => { data := none, err := none, trace := [.transport req] }
        | data =>
          match env.marshalData data with
          | .error err => { data := none, err := some err, trace := [.transport req] }
          | .ok jsonData => { data := some jsonData, err := none, trace := [.transport req] }

/-- The method `Do`, lines 178 to 189: the request is acquired, filled and signed. The
result is the request `Do` hands to `doApi`, or the error of `setBody`. -/
def assemble (env : Env) (a : ApiReq) : Request × Option GoError :=
  let req := Request.empty
  let req := { req with Header := req.Header.SetMethod a.Method }
  let req := SetRequestURI env req (setReqUri a)
  let r := if a.Body ≠ none then setBody env req a.ContentType a.Body else (req, none)
  match r.2 with
  | some err => (r.1, some err)
  | none =>
    let req := { r.1 with Header := r.1.Header.SetContentType a.ContentType }
    (initialBasicHeader env req a.AppKey a.AppSecret a.ContentType, none)

/-- The method `Do`: the start line, the assembly (on the error of `setBody` the method
returns at once), `doApi`, and the failure or success line with the elapsed time. -/
def Do (env : Env) (a : ApiReq) : Outcome :=
  let started := [Event.start a.ctx.isSome a.Method a.Path a.Body]
  match assemble env a with
  | (_, some err) => { data := none, err := some err, trace := started }
  | (req, none) =>
    let r := doApi env req
    let milliseconds := env.elapsed.tdiv 1000000
    match r.err with
    | some err =>
      { data := none, err := some err,
        trace := started ++ r.trace ++ [.failed a.ctx.isSome a.Method a.Path milliseconds err] }
    | none =>
      { data := r.data, err := none,
        trace := started ++ r.trace ++
          [.success a.ctx.isSome a.Method a.Path milliseconds (r.data.getD "")] }

/-! ## Statement vocabulary -/

/-- Strict byte-wise lexicographic order on strings. -/
def strLT (a b : String) : Prop := a.data < b.data

instance strLT.decidable : DecidableRel strLT :=
  fun a b => inferInstanceAs (Decidable (a.data < b.data))

/-- The rendering of one query parameter as the specification words it: the bare key for
an empty value, `key=value` otherwise. -/
def renderParam (p : String × String) : String :=
  if p.2 = "" then p.1 else p.1 ++ "=" ++ p.2

/-- The line of the header block for one header entry: `name:value` and a line feed. -/
def headerLine (e : String × String) : String := e.1 ++ ":" ++ e.2 ++ "\n"

/-- The header store is a mapping in canonical form: no name is stored twice, and every
stored name is its own canonical form. The empty header is such a store and the writes of
this program keep it so; it is more than `SignedOnce` asks. -/
def RequestHeader.WF (hd : RequestHeader) : Prop :=
  hd.PeekKeys.Nodup ∧ ∀ k ∈ hd.PeekKeys, CanonicalHeaderKey k = k

instance RequestHeader.WF.decidable (hd : RequestHeader) : Decidable hd.WF :=
  inferInstanceAs (Decidable (hd.PeekKeys.Nodup ∧ ∀ k ∈ hd.PeekKeys, CanonicalHeaderKey k = k))

/-- Every stored header whose canonical name is signed is stored under that canonical
name, and no signed name is stored twice. A store that is written by `Set` alone is so. -/
def RequestHeader.SignedOnce (hd : RequestHeader) : Prop :=
  (∀ k ∈ hd.PeekKeys, CanonicalHeaderKey k ∈ signHeaders → CanonicalHeaderKey k = k) ∧
  (hd.PeekKeys.filter (fun k => decide (k ∈ signHeaders))).Nodup

instance RequestHeader.SignedOnce.decidable (hd : RequestHeader) : Decidable hd.SignedOnce :=
  inferInstanceAs (Decidable
    ((∀ k ∈ hd.PeekKeys, CanonicalHeaderKey k ∈ signHeaders → CanonicalHeaderKey k = k) ∧
     (hd.PeekKeys.filter (fun k => decide (k ∈ signHeaders))).Nodup))

/-- A string without carriage return and line feed. -/
def noNewLines (s : String) : Prop := ∀ c ∈ s.data, c ≠ '\r' ∧ c ≠ '\n'

/-- The request with one plain header entry written. -/
def Request.withArg (req : Request) (key value : String) : Request :=
  { req with Header := { req.Header with h := setArg req.Header.h key value } }

/-- The request agrees with `req` on the body and on the state of `Content-MD5`. -/
def SameDigestState (req r : Request) : Prop :=
  r.body = req.body ∧
  peekArg r.Header.h "Content-Md5" = peekArg req.Header.h "Content-Md5" ∧
  ("Content-Md5" ∈ r.Header.PeekKeys ↔ "Content-Md5" ∈ req.Header.PeekKeys)

/-! ## Sample inputs -/

/-- The response envelope `{"code":"200","data":{"x":1},"success":true}`. -/
def envelopeOk : String :=
  "\x7b\"code\":\"200\",\"data\":\x7b\"x\":1\x7d,\"success\":true\x7d"

/-- The response envelope `{"code":"400","message":"bad request","success":false}`. -/
def envelopeBad : String :=
  "\x7b\"code\":\"400\",\"message\":\"bad request\",\"success\":false\x7d"

/-- The decoded `data` of `envelopeOk`: the object with the one field `x`, whose value is
the `float64` 1 (bits `0x3FF0000000000000`). -/
def dataX1 : JsonValue := .object [("x", .number 4607182418800017408)]

/-- A sample environment. The transport answers status 200 with `envelopeBad` on the path
`/v1/bad` and with `envelopeOk` elsewhere; the codec knows these two envelopes; the two
hashes are stand-ins that tag their input; of the case tables it holds the one entry that
maps U+00F6 (o with diaeresis) to U+00D6. -/
def sampleEnv : Env where
  uuidNewRandom := .ok "6ba7b810-9dad-41d1-80b4-00c04fd430c8"
  timeMillis := "1700000000000"
  gmtDate := "Tue, 14 Nov 2023 22:13:20 GMT"
  unicodeUpper := fun c => if c = Char.ofNat 246 then Char.ofNat 214 else c
  md5Base64 := fun b => "md5:" ++ b
  hmacBase64 := fun b key => "hmac:" ++ key ++ ":" ++ b
  marshalBody := fun body =>
    match body with
    | none => .ok "null"
    | some (.str s) => .ok ("\"" ++ s ++ "\"")
    | some (.buffer _) => .ok "\x7b\x7d"
    | some (.other descr) => .ok descr
  unmarshal := fun b =>
    if b = envelopeOk then .ok ⟨"200", "", dataX1, true⟩
    else if b = envelopeBad then .ok ⟨"400", "bad request", .null, false⟩
    else .error (.library "invalid character")
  marshalData := fun v =>
    match v with
    | .object [(_, .number _)] => .ok "\x7b\"x\":1\x7d"
    | _ => .ok "null"
  parseURI := fun uri => (uri, [])
  send := fun req =>
    if req.path = "/v1/bad" then .ok ⟨200, envelopeBad⟩ else .ok ⟨200, envelopeOk⟩
  elapsed := 5000000

/-- A request with eight stored headers and two query parameters. Three headers are
signed; of the others one is stored in lower case and one name is stored twice. -/
def sampleReq : Request :=
  { Header :=
      { method := "post", contentType := "application/json", userAgent := "", host := "",
        connectionClose := false,
        h := [("X-Ca-Timestamp", "1700000000000"), ("Accept", "*/*"), ("X-Ca-Key", "ak"),
              ("Date", "Tue, 14 Nov 2023 22:13:20 GMT"), ("X-Ca-Nonce", "n-1"),
              ("X-Trace", "t"), ("x-request-id", "r-7"), ("X-Trace", "u")] },
    path := "/v1/items",
    queryArgs := [("b", "1"), ("a", "")],
    body := some "\x7b\x7d" }

/-- A request whose method has a letter outside ASCII (U+00F6). -/
def umlautReq : Request :=
  { Request.empty with
    Header := { RequestHeader.empty with method := "p\u00f6st" }, path := "/p" }

/-- A request whose one header is stored under a name in lower case. -/
def lowerCaseReq : Request :=
  { Request.empty with Header := { RequestHeader.empty with h := [("x-ca-key", "k")] } }

/-- A request that stores two headers under the same signed name. -/
def twiceReq : Request :=
  { Request.empty with
    Header := { RequestHeader.empty with h := [("X-Ca-Key", "a"), ("X-Ca-Key", "b")] } }

/-- A request whose only query parameter has the empty key and the empty value. -/
def emptyParamReq : Request :=
  { Request.empty with path := "/p", queryArgs := [("", "")] }

/-- A request on the path the sample transport answers with `envelopeBad`. -/
def badPathReq : Request := { Request.empty with path := "/v1/bad" }

/-- A call with the form content type and a body that is no string. -/
def formCall : ApiReq :=
  { ctx := none, Path := "/v1/items", Body := some (.other "42"), Method := "POST",
    ContentType := "application/x-www-form-urlencoded", Host := "https://gw.example.com",
    AppKey := "ak", AppSecret := "sk" }

/-- A call with the JSON content type. -/
def jsonCall : ApiReq := { formCall with ContentType := HTTPContentTypeJson }

/-! # Theorems -/

/-! ## Strings and sorting -/

theorem append_eq_empty (a b : String) : a ++ b = "" ↔ a = "" ∧ b = "" := by
  simp [String.ext_iff]

theorem strLT_of_strLE_of_ne {a b : String} (h : strLE a b) (hne : a ≠ b) : strLT a b :=
  @lt_of_le_of_ne (List Char) _ _ _ h (fun hd => hne (String.ext hd))

/-- The order `strLE` is the order of `String`. -/
theorem strLE_iff_le (a b : String) : strLE a b ↔ a ≤ b := by
  unfold strLE
  rw [← not_lt, ← not_lt, String.lt_iff_toList_lt]
  rfl

theorem sortStrings_perm (l : List String) : (sortStrings l).Perm l :=
  List.perm_insertionSort strLE l

theorem sortStrings_sorted (l : List String) : (sortStrings l).Sorted strLE :=
  List.sorted_insertionSort strLE l

theorem sortStrings_strict (l : List String) (hnd : l.Nodup) :
    (sortStrings l).Pairwise strLT := by
  have hs : (sortStrings l).Pairwise strLE := sortStrings_sorted l
  have hn : (sortStrings l).Pairwise (fun a b => a ≠ b) :=
    ((sortStrings_perm l).nodup_iff).2 hnd
  exact List.Pairwise.imp₂ (fun a b hle hne => strLT_of_strLE_of_ne hle hne) hs hn

/-- Sorting commutes with any filter, up to the lists filtered being rearrangements. -/
theorem filter_sortStrings_congr (p : String → Bool) {l₁ l₂ : List String}
    (h : (l₁.filter p).Perm (l₂.filter p)) :
    (sortStrings l₁).filter p = (sortStrings l₂).filter p := by
  have hp : ((sortStrings l₁).filter p).Perm ((sortStrings l₂).filter p) :=
    (((sortStrings_perm l₁).filter p).trans h).trans ((sortStrings_perm l₂).filter p).symm
  have h₁ : ((sortStrings l₁).filter p).Sorted strLE := (sortStrings_sorted l₁).filter p
  have h₂ : ((sortStrings l₂).filter p).Sorted strLE := (sortStrings_sorted l₂).filter p
  exact List.eq_of_perm_of_sorted hp h₁ h₂

theorem getSortKeys_plain (m : List String) : getSortKeys m false = sortStrings m := by
  simp [getSortKeys]

theorem getSortKeys_format (m : List String) :
    getSortKeys m true = sortStrings (m.map CanonicalHeaderKey) := by
  simp [getSortKeys]

/-! ## The `argsKV` store -/

theorem peekArg_of_mem {l : List (String × String)} (hnd : (l.map Prod.fst).Nodup)
    {k v : String} (hm : (k, v) ∈ l) : peekArg l k = v := by
  induction l with
  | nil => cases hm
  | cons e rest ih =>
    obtain ⟨k0, v0⟩ := e
    rw [List.map_cons, List.nodup_cons] at hnd
    rcases List.mem_cons.1 hm with h | h
    · cases h
      simp [peekArg]
    · have hk : k0 ≠ k := by
        intro hk
        apply hnd.1
        rw [hk]
        exact List.mem_map.2 ⟨(k, v), h, rfl⟩
      simp [peekArg, hk, ih hnd.2 h]

theorem map_peekArg_keys {l : List (String × String)} (hnd : (l.map Prod.fst).Nodup) :
    (l.map Prod.fst).map (fun k => (k, peekArg l k)) = l := by
  rw [List.map_map]
  conv_rhs => rw [← List.map_id l]
  apply List.map_congr_left
  intro e he
  obtain ⟨k, v⟩ := e
  simp [peekArg_of_mem hnd he]

theorem peekArg_setArg_same (l : List (String × String)) (k v : String) :
    peekArg (setArg l k v) k = v := by
  induction l with
  | nil => simp [setArg, peekArg]
  | cons e rest ih =>
    obtain ⟨k0, v0⟩ := e
    by_cases hk : k0 = k
    · simp [setArg, peekArg, hk]
    · simp [setArg, peekArg, hk, ih]

theorem peekArg_setArg_other (l : List (String × String)) {k k1 : String} (v : String)
    (hne : k1 ≠ k) : peekArg (setArg l k v) k1 = peekArg l k1 := by
  induction l with
  | nil =>
    have : ¬ k = k1 := fun h => hne h.symm
    simp [setArg, peekArg, this]
  | cons e rest ih =>
    obtain ⟨k0, v0⟩ := e
    by_cases hk : k0 = k
    · subst hk
      have : ¬ k0 = k1 := fun h => hne h.symm
      simp [setArg, peekArg, this]
    · by_cases hk1 : k0 = k1
      · subst hk1
        simp [setArg, peekArg, hk]
      · simp [setArg, peekArg, hk, hk1, ih]

/-! ## Query parameters -/

theorem renderParam_eq_empty (p : String × String) : renderParam p = "" ↔ p = ("", "") := by
  obtain ⟨k, v⟩ := p
  unfold renderParam
  by_cases hv : v = ""
  · simp [hv]
  · simp [hv, append_eq_empty]

theorem Join_eq_empty (l : List String) (sep : String) (hsep : sep ≠ "") :
    Join l sep = "" ↔ l = [] ∨ l = [""] := by
  match l with
  | [] => simp [Join]
  | [a] => simp [Join]
  | a :: b :: rest => simp [Join, append_eq_empty, hsep]

/-- C3 (as amended). For every path and every query-parameter mapping (no key twice),
`buildParamStringToSign` returns the path followed by the rendering of the parameters
when that rendering is non-empty, and the path alone when it is empty: the rendering is
the parameters in strictly ascending byte-wise order of key, each the bare key when its
value is empty and `key=value` otherwise, joined by `&`, with `?` in front. The rendering
is empty exactly when there is no parameter or the only parameter has an empty key and
an empty value. -/
theorem buildParamStringToSign_sorted (req : Request)
    (hnd : (req.queryArgs.map Prod.fst).Nodup) :
    ∃ params : List (String × String),
      params.Perm req.queryArgs ∧
      (params.map Prod.fst).Pairwise strLT ∧
      buildParamStringToSign req =
        req.path ++ (if Join (params.map renderParam) "&" = "" then ""
          else "?" ++ Join (params.map renderParam) "&") ∧
      (Join (params.map renderParam) "&" = "" ↔
        req.queryArgs = [] ∨ req.queryArgs = [("", "")]) ∧
      (req.queryArgs = [] → buildParamStringToSign req = req.path) := by
  refine ⟨(sortStrings (req.queryArgs.map Prod.fst)).map
      (fun k => (k, peekArg req.queryArgs k)), ?_, ?_, ?_, ?_, ?_⟩
  · have h := (sortStrings_perm (req.queryArgs.map Prod.fst)).map
      (fun k => (k, peekArg req.queryArgs k))
    rwa [map_peekArg_keys hnd] at h
  · rw [List.map_map]
    have : (Prod.fst ∘ fun k => (k, peekArg req.queryArgs k)) = id := rfl
    rw [this, List.map_id]
    exact sortStrings_strict _ hnd
  · unfold buildParamStringToSign
    simp only [getSortKeys_plain, List.map_map]
    have hf : (renderParam ∘ fun k => (k, peekArg req.queryArgs k)) =
        (fun key => if peekArg req.queryArgs key = "" then key
          else key ++ "=" ++ peekArg req.queryArgs key) := rfl
    rw [hf]
    by_cases h : Join ((sortStrings (req.queryArgs.map Prod.fst)).map
        (fun key => if peekArg req.queryArgs key = "" then key
          else key ++ "=" ++ peekArg req.queryArgs key)) "&" = ""
    · simp [h]
    · simp [h]
  · have hp : ((sortStrings (req.queryArgs.map Prod.fst)).map
        (fun k => (k, peekArg req.queryArgs k))).Perm req.queryArgs := by
      have h := (sortStrings_perm (req.queryArgs.map Prod.fst)).map
        (fun k => (k, peekArg req.queryArgs k))
      rwa [map_peekArg_keys hnd] at h
    generalize (sortStrings (req.queryArgs.map Prod.fst)).map
      (fun k => (k, peekArg req.queryArgs k)) = params at hp
    rw [Join_eq_empty _ _ (by decide)]
    constructor
    · rintro (h | h)
      · left
        rw [List.map_eq_nil_iff] at h
        subst h
        exact hp.symm.eq_nil
      · right
        cases params with
        | nil => cases h
        | cons p rest =>
          rw [List.map_cons, List.cons.injEq, List.map_eq_nil_iff] at h
          rw [h.2, (renderParam_eq_empty p).1 h.1] at hp
          exact List.perm_singleton.1 hp.symm
    · rintro (h | h)
      · left
        rw [h] at hp
        rw [hp.eq_nil]
        rfl
      · right
        rw [h] at hp
        rw [List.perm_singleton.1 hp]
        rfl
  · intro h
    unfold buildParamStringToSign
    simp [h, getSortKeys_plain, sortStrings, Join]

/-! ## The header store -/

theorem signHeaders_eq :
    signHeaders = ["X-Ca-Key", "X-Ca-Nonce", "X-Ca-Signature-Method", "X-Ca-Timestamp"] := by
  decide

theorem Peek_signHeader (hd : RequestHeader) {k : String} (hk : k ∈ signHeaders) :
    hd.Peek k = peekArg hd.h k := by
  rw [signHeaders_eq] at hk
  simp only [List.mem_cons, List.mem_singleton, List.not_mem_nil, or_false] at hk
  rcases hk with h | h | h | h <;> subst h <;> rfl

theorem peekArg_of_not_mem (l : List (String × String)) (k : String)
    (h : k ∉ l.map Prod.fst) : peekArg l k = "" := by
  induction l with
  | nil => rfl
  | cons e rest ih =>
    obtain ⟨k0, v0⟩ := e
    simp only [List.map_cons, List.mem_cons, not_or] at h
    have hk : ¬ k0 = k := fun hk => h.1 hk.symm
    simp [peekArg, hk, ih h.2]

theorem keys_setArg (l : List (String × String)) (k v : String) :
    (setArg l k v).map Prod.fst =
      if k ∈ l.map Prod.fst then l.map Prod.fst else l.map Prod.fst ++ [k] := by
  induction l with
  | nil => simp [setArg]
  | cons e rest ih =>
    obtain ⟨k0, v0⟩ := e
    by_cases hk : k0 = k
    · subst hk
      simp [setArg]
    · have hk1 : ¬ k = k0 := fun h => hk h.symm
      simp only [setArg, hk, if_false, List.map_cons, ih, List.mem_cons, hk1, false_or]
      split_ifs <;> simp

theorem removeNewLines_of_noNewLines {s : String} (h : noNewLines s) : removeNewLines s = s := by
  apply String.ext
  show s.data.map (fun c => if c = '\r' ∨ c = '\n' then ' ' else c) = s.data
  conv_rhs => rw [← List.map_id s.data]
  apply List.map_congr_left
  intro c hc
  have := h c hc
  simp [this.1, this.2]

theorem noNewLines_append {a b : String} (ha : noNewLines a) (hb : noNewLines b) :
    noNewLines (a ++ b) := by
  intro c hc
  rw [String.data_append, List.mem_append] at hc
  rcases hc with h | h
  · exact ha c h
  · exact hb c h

theorem noNewLines_Join (l : List String) (sep : String) (hl : ∀ s ∈ l, noNewLines s)
    (hsep : noNewLines sep) : noNewLines (Join l sep) := by
  match l with
  | [] => intro c hc; cases hc
  | [a] => exact hl a (List.mem_singleton.2 rfl)
  | a :: b :: rest =>
    have h1 : noNewLines a := hl a (List.mem_cons_self _ _)
    have h2 : noNewLines (Join (b :: rest) sep) :=
      noNewLines_Join (b :: rest) sep (fun s hs => hl s (List.mem_cons_of_mem _ hs)) hsep
    exact noNewLines_append (noNewLines_append h1 hsep) h2

theorem noNewLines_signHeader {s : String} (hs : s ∈ signHeaders) : noNewLines s := by
  have h : ∀ s ∈ signHeaders, ∀ c ∈ s.data, c ≠ '\r' ∧ c ≠ '\n' := by decide
  exact h s hs

/-! ## The header block -/

theorem signLoop_eq (hd : RequestHeader) (l : List String) :
    signLoop hd l =
      (l.filter (fun k => decide (k ∈ signHeaders)),
       (l.filter (fun k => decide (k ∈ signHeaders))).map
         (fun k => k ++ ":" ++ hd.Peek k ++ defaultLF)) := by
  induction l with
  | nil => rfl
  | cons k rest ih =>
    by_cases hk : k ∈ signHeaders
    · simp [signLoop, ih, hk]
    · simp [signLoop, ih, hk]

theorem headerBlock_eq (req : Request) :
    (buildHeaderStringToSign req).1 =
      concat (((sortStrings (req.Header.PeekKeys.map CanonicalHeaderKey)).filter
        (fun k => decide (k ∈ signHeaders))).map
          (fun k => headerLine (k, peekArg req.Header.h k))) := by
  unfold buildHeaderStringToSign
  simp only [getSortKeys_format, signLoop_eq]
  congr 1
  apply List.map_congr_left
  intro k hk
  have hk1 : k ∈ signHeaders := by simpa using (List.mem_filter.1 hk).2
  rw [Peek_signHeader _ hk1]
  rfl

theorem signatureHeaders_eq (req : Request) :
    (buildHeaderStringToSign req).2 =
      req.withArg "X-Ca-Signature-Headers"
        (Join ((sortStrings (req.Header.PeekKeys.map CanonicalHeaderKey)).filter
          (fun k => decide (k ∈ signHeaders))) ",") := by
  have hclean : removeNewLines
      (Join ((sortStrings (req.Header.PeekKeys.map CanonicalHeaderKey)).filter
          (fun k => decide (k ∈ signHeaders))) ",") =
      Join ((sortStrings (req.Header.PeekKeys.map CanonicalHeaderKey)).filter
          (fun k => decide (k ∈ signHeaders))) "," := by
    apply removeNewLines_of_noNewLines
    apply noNewLines_Join
    · intro s hs
      exact noNewLines_signHeader (by simpa using (List.mem_filter.1 hs).2)
    · show ∀ c ∈ ",".data, c ≠ '\r' ∧ c ≠ '\n'
      decide
  unfold buildHeaderStringToSign
  simp only [getSortKeys_format, signLoop_eq]
  show req.setHeader "X-Ca-Signature-Headers" _ = _
  conv_rhs => rw [← hclean]
  rfl

theorem map_canonical_of_WF {hd : RequestHeader} (hwf : hd.WF) :
    hd.PeekKeys.map CanonicalHeaderKey = hd.PeekKeys := by
  conv_rhs => rw [← List.map_id hd.PeekKeys]
  exact List.map_congr_left (fun k hk => hwf.2 k hk)

/-! ## Canonical names -/

theorem toLower_of_not_upper (c : Char) (h : ¬ (65 ≤ c.toNat ∧ c.toNat ≤ 90)) :
    c.toLower = c := by
  unfold Char.toLower
  simp only [ge_iff_le]
  rw [if_neg h]

theorem upper_letter_cases (P : Char → Prop)
    (hP : ∀ n, 65 ≤ n → n ≤ 90 → P (Char.ofNat n))
    (c : Char) (h : 65 ≤ c.toNat ∧ c.toNat ≤ 90) : P c := by
  have := hP c.toNat h.1 h.2
  rwa [Char.ofNat_toNat] at this

theorem toUpper_toLower (c : Char) : c.toLower.toUpper = c.toUpper := by
  by_cases h : 65 ≤ c.toNat ∧ c.toNat ≤ 90
  · refine upper_letter_cases (fun c => c.toLower.toUpper = c.toUpper) ?_ c h
    intro n h1 h2
    interval_cases n <;> decide
  · rw [toLower_of_not_upper c h]

theorem toLower_toLower (c : Char) : c.toLower.toLower = c.toLower := by
  by_cases h : 65 ≤ c.toNat ∧ c.toNat ≤ 90
  · refine upper_letter_cases (fun c => c.toLower.toLower = c.toLower) ?_ c h
    intro n h1 h2
    interval_cases n <;> decide
  · rw [toLower_of_not_upper c h, toLower_of_not_upper c h]

theorem validHeaderFieldByte_toLower (c : Char) :
    validHeaderFieldByte c.toLower = validHeaderFieldByte c := by
  by_cases h : 65 ≤ c.toNat ∧ c.toNat ≤ 90
  · refine upper_letter_cases
      (fun c => validHeaderFieldByte c.toLower = validHeaderFieldByte c) ?_ c h
    intro n h1 h2
    interval_cases n <;> decide
  · rw [toLower_of_not_upper c h]

theorem canonicalBytes_congr (upper : Bool) (ks ns : List Char)
    (h : ks.map Char.toLower = ns.map Char.toLower) :
    canonicalBytes upper ks = canonicalBytes upper ns := by
  induction ks generalizing ns upper with
  | nil =>
    cases ns with
    | nil => rfl
    | cons n ns => cases h
  | cons k ks ih =>
    cases ns with
    | nil => cases h
    | cons n ns =>
      rw [List.map_cons, List.map_cons, List.cons.injEq] at h
      have hl : k.toLower = n.toLower := h.1
      have hu : k.toUpper = n.toUpper := by
        rw [← toUpper_toLower k, ← toUpper_toLower n, hl]
      simp only [canonicalBytes, hl, hu]
      rw [ih _ ns h.2]

theorem all_valid_congr (ks ns : List Char)
    (h : ks.map Char.toLower = ns.map Char.toLower) :
    ks.all validHeaderFieldByte = ns.all validHeaderFieldByte := by
  have e : ∀ l : List Char,
      (l.map Char.toLower).all validHeaderFieldByte = l.all validHeaderFieldByte := by
    intro l
    induction l with
    | nil => rfl
    | cons c l ih => simp only [List.map_cons, List.all_cons, ih, validHeaderFieldByte_toLower]
  rw [← e ks, ← e ns, h]

/-- A name that equals a signed name up to the case of its letters has the signed name
as its canonical form. -/
theorem CanonicalHeaderKey_of_lower_eq {k n : String} (hn : n ∈ signHeaders)
    (h : k.data.map Char.toLower = n.data.map Char.toLower) : CanonicalHeaderKey k = n := by
  have hs : ∀ n ∈ signHeaders,
      n.data.all validHeaderFieldByte = true ∧ String.mk (canonicalBytes true n.data) = n := by
    decide
  unfold CanonicalHeaderKey
  rw [all_valid_congr _ _ h, (hs n hn).1, if_pos rfl, canonicalBytes_congr _ _ _ h]
  exact (hs n hn).2

theorem CanonicalHeaderKey_signHeader {n : String} (hn : n ∈ signHeaders) :
    CanonicalHeaderKey n = n :=
  CanonicalHeaderKey_of_lower_eq hn rfl

/-! ## Signed headers stored once -/

theorem filter_canonical_keys (l : List String)
    (h : ∀ k ∈ l, CanonicalHeaderKey k ∈ signHeaders → CanonicalHeaderKey k = k) :
    (l.map CanonicalHeaderKey).filter (fun k => decide (k ∈ signHeaders)) =
      l.filter (fun k => decide (k ∈ signHeaders)) := by
  induction l with
  | nil => rfl
  | cons k rest ih =>
    have ih1 := ih (fun x hx => h x (List.mem_cons_of_mem _ hx))
    by_cases hc : CanonicalHeaderKey k ∈ signHeaders
    · have hk := h k (List.mem_cons_self _ _) hc
      have hk1 : k ∈ signHeaders := hk ▸ hc
      simp [List.filter_cons, hc, hk1, hk, ih1]
    · have hk1 : k ∉ signHeaders := fun hk1 =>
        hc (by rw [CanonicalHeaderKey_signHeader hk1]; exact hk1)
      simp [List.filter_cons, hc, hk1, ih1]

theorem peekArg_of_mem_filter {l : List (String × String)} (p : String → Bool)
    (hnd : ((l.map Prod.fst).filter p).Nodup) {k v : String} (hp : p k = true)
    (hm : (k, v) ∈ l) : peekArg l k = v := by
  induction l with
  | nil => cases hm
  | cons e rest ih =>
    obtain ⟨k0, v0⟩ := e
    by_cases hk : k0 = k
    · subst hk
      rw [List.map_cons, List.filter_cons, if_pos hp, List.nodup_cons] at hnd
      rcases List.mem_cons.1 hm with h | h
      · cases h
        simp [peekArg]
      · exact absurd (List.mem_filter.2 ⟨List.mem_map.2 ⟨(k0, v), h, rfl⟩, hp⟩) hnd.1
    · have hrest : (k, v) ∈ rest := by
        rcases List.mem_cons.1 hm with h | h
        · cases h
          exact absurd rfl hk
        · exact h
      have hnd1 : ((rest.map Prod.fst).filter p).Nodup := by
        rw [List.map_cons, List.filter_cons] at hnd
        split_ifs at hnd
        · exact (List.nodup_cons.1 hnd).2
        · exact hnd
      simp [peekArg, hk, ih hnd1 hrest]

theorem SignedOnce_of_WF {hd : RequestHeader} (hwf : hd.WF) : hd.SignedOnce :=
  ⟨fun k hk _ => hwf.2 k hk, hwf.1.filter _⟩

/-- C2 (as amended). For every request header set, `buildHeaderStringToSign` returns one
line for each stored header whose canonical (title-cased) name is in `signHeaders`, in
ascending byte-wise order of canonical name, and nothing else; the line is the canonical
name, a colon, the value `Peek` returns for the canonical name, and a line feed; and the
request it leaves carries those canonical names, in that order and joined by commas, as
`X-Ca-Signature-Headers`. When every header whose canonical name is signed is stored
under its canonical name, and no signed name is stored twice, the order is strictly
ascending and the lines are the `name:value` of exactly those stored headers, each with
its own value. A name that equals a signed name up to the case of its letters has the
signed name as its canonical form. -/
theorem buildHeaderStringToSign_lines (req : Request) :
    (∃ names : List String,
      names.Perm ((req.Header.PeekKeys.map CanonicalHeaderKey).filter
        (fun k => decide (k ∈ signHeaders))) ∧
      names.Sorted strLE ∧
      (buildHeaderStringToSign req).1 =
        concat (names.map fun n => headerLine (n, req.Header.Peek n)) ∧
      (buildHeaderStringToSign req).2.Header.Peek HTTPHeaderCASignatureHeaders =
        Join names defaultSep ∧
      (req.Header.SignedOnce →
        names.Pairwise strLT ∧
        (names.map fun n => (n, req.Header.Peek n)).Perm
          (req.Header.h.filter (fun e => decide (CanonicalHeaderKey e.1 ∈ signHeaders))))) ∧
    (∀ k n : String, n ∈ signHeaders →
      k.data.map Char.toLower = n.data.map Char.toLower → CanonicalHeaderKey k = n) := by
  refine ⟨⟨(sortStrings (req.Header.PeekKeys.map CanonicalHeaderKey)).filter
      (fun k => decide (k ∈ signHeaders)), ?_, ?_, ?_, ?_, ?_⟩,
    fun k n hn h => CanonicalHeaderKey_of_lower_eq hn h⟩
  · exact (sortStrings_perm _).filter _
  · exact (sortStrings_sorted _).filter _
  · rw [headerBlock_eq]
    congr 1
    apply List.map_congr_left
    intro n hn
    have hn1 : n ∈ signHeaders := by simpa using (List.mem_filter.1 hn).2
    rw [Peek_signHeader _ hn1]
  · rw [signatureHeaders_eq]
    show peekArg (setArg req.Header.h "X-Ca-Signature-Headers" _) "X-Ca-Signature-Headers" = _
    rw [peekArg_setArg_same]
    rfl
  · intro hso
    have hkeys := filter_canonical_keys req.Header.PeekKeys hso.1
    have hperm : ((sortStrings (req.Header.PeekKeys.map CanonicalHeaderKey)).filter
        (fun k => decide (k ∈ signHeaders))).Perm
        (req.Header.PeekKeys.filter (fun k => decide (k ∈ signHeaders))) := by
      rw [← hkeys]
      exact (sortStrings_perm _).filter _
    constructor
    · have hs : ((sortStrings (req.Header.PeekKeys.map CanonicalHeaderKey)).filter
          (fun k => decide (k ∈ signHeaders))).Pairwise strLE :=
        (sortStrings_sorted _).filter _
      have hn : ((sortStrings (req.Header.PeekKeys.map CanonicalHeaderKey)).filter
          (fun k => decide (k ∈ signHeaders))).Pairwise (fun a b => a ≠ b) :=
        (hperm.nodup_iff).2 hso.2
      exact List.Pairwise.imp₂ (fun a b hle hne => strLT_of_strLE_of_ne hle hne) hs hn
    · refine (hperm.map (fun n => (n, req.Header.Peek n))).trans ?_
      have h2 : (req.Header.PeekKeys.filter (fun k => decide (k ∈ signHeaders))).map
          (fun n => (n, req.Header.Peek n)) =
          req.Header.h.filter (fun e => decide (CanonicalHeaderKey e.1 ∈ signHeaders)) := by
        unfold RequestHeader.PeekKeys
        rw [List.filter_map, List.map_map]
        have h3 : req.Header.h.filter ((fun k => decide (k ∈ signHeaders)) ∘ Prod.fst) =
            req.Header.h.filter (fun e => decide (CanonicalHeaderKey e.1 ∈ signHeaders)) := by
          apply List.filter_congr
          intro e he
          have hmem : e.1 ∈ req.Header.PeekKeys := List.mem_map.2 ⟨e, he, rfl⟩
          by_cases hc : CanonicalHeaderKey e.1 ∈ signHeaders
          · have hk := hso.1 e.1 hmem hc
            have hk1 : e.1 ∈ signHeaders := hk ▸ hc
            simp [hc, hk1]
          · have hk1 : e.1 ∉ signHeaders := fun hk1 =>
              hc (by rw [CanonicalHeaderKey_signHeader hk1]; exact hk1)
            simp [hc, hk1]
        rw [h3]
        conv_rhs => rw [← List.map_id (req.Header.h.filter _)]
        apply List.map_congr_left
        intro e he
        obtain ⟨k, v⟩ := e
        have hmem := (List.mem_filter.1 he).1
        have hc : CanonicalHeaderKey k ∈ signHeaders := by
          simpa using (List.mem_filter.1 he).2
        have hk : k ∈ signHeaders :=
          (hso.1 k (List.mem_map.2 ⟨(k, v), hmem, rfl⟩) hc) ▸ hc
        have hv : peekArg req.Header.h k = v :=
          peekArg_of_mem_filter (fun k => decide (k ∈ signHeaders)) hso.2
            (by simpa using hk) hmem
        simp [Peek_signHeader _ hk, hv]
      rw [h2]

/-! ## The string to sign -/

theorem stringToSign_eq (env : Env) (req : Request) :
    (buildStringToSign env req).1 =
      ToUpper env.unicodeUpper req.Header.Method ++ "\n" ++
      req.Header.Peek HTTPHeaderAccept ++ "\n" ++
      req.Header.Peek HTTPHeaderContentMD5 ++ "\n" ++
      req.Header.Peek HTTPHeaderContentType ++ "\n" ++
      req.Header.Peek HTTPHeaderDate ++ "\n" ++
      (buildHeaderStringToSign req).1 ++
      buildParamStringToSign req := by
  have hp : buildParamStringToSign (buildHeaderStringToSign req).2 =
      buildParamStringToSign req := rfl
  unfold buildStringToSign
  simp only [hp, concat, defaultLF, String.append_assoc, String.append_empty]

theorem ToUpper_data (unicodeUpper : Char → Char) (s : String) :
    (ToUpper unicodeUpper s).data =
      s.data.map (fun c =>
        if 97 ≤ c.toNat ∧ c.toNat ≤ 122 then Char.ofNat (c.toNat - 32)
        else if c.toNat < 128 then c else unicodeUpper c) := by
  show s.data.map (upperRune unicodeUpper) = _
  apply List.map_congr_left
  intro c _
  unfold upperRune Char.toUpper
  simp only [ge_iff_le]
  split_ifs <;> first | rfl | omega

/-- C1. For every request, `buildStringToSign` returns the upper-cased method, the values
of `Accept`, `Content-MD5`, `Content-Type` and `Date`, each followed by one line feed, then
the block of `buildHeaderStringToSign`, then the string of `buildParamStringToSign`, and
nothing after it. The upper-cased method is the method with every rune replaced by its
upper case: `a`..`z` by `A`..`Z`, any other rune up to U+007F by itself, a rune above by
its entry in the Unicode case tables; the method is the one `Method()` reads, the stored
method or `GET` when none is stored. `Accept`, `Content-MD5` and `Date` read as the empty
string when no such header is stored. -/
theorem buildStringToSign_layout (env : Env) (req : Request) :
    (buildStringToSign env req).1 =
      ToUpper env.unicodeUpper req.Header.Method ++ "\n" ++
      req.Header.Peek HTTPHeaderAccept ++ "\n" ++
      req.Header.Peek HTTPHeaderContentMD5 ++ "\n" ++
      req.Header.Peek HTTPHeaderContentType ++ "\n" ++
      req.Header.Peek HTTPHeaderDate ++ "\n" ++
      (buildHeaderStringToSign req).1 ++
      buildParamStringToSign req ∧
    (ToUpper env.unicodeUpper req.Header.Method).data =
      req.Header.Method.data.map (fun c =>
        if 97 ≤ c.toNat ∧ c.toNat ≤ 122 then Char.ofNat (c.toNat - 32)
        else if c.toNat < 128 then c else env.unicodeUpper c) ∧
    req.Header.Method = (if req.Header.method = "" then "GET" else req.Header.method) ∧
    (normalizeHeaderKey HTTPHeaderAccept ∉ req.Header.PeekKeys →
      req.Header.Peek HTTPHeaderAccept = "") ∧
    (normalizeHeaderKey HTTPHeaderContentMD5 ∉ req.Header.PeekKeys →
      req.Header.Peek HTTPHeaderContentMD5 = "") ∧
    (normalizeHeaderKey HTTPHeaderDate ∉ req.Header.PeekKeys →
      req.Header.Peek HTTPHeaderDate = "") ∧
    req.Header.Peek HTTPHeaderContentType = req.Header.contentType := by
  refine ⟨stringToSign_eq env req, ToUpper_data _ _, rfl, ?_, ?_, ?_, rfl⟩
  · intro h
    exact peekArg_of_not_mem _ _ h
  · intro h
    exact peekArg_of_not_mem _ _ h
  · intro h
    exact peekArg_of_not_mem _ _ h

/-- C1 at a sample request: the method `p\u00f6st`, with a letter outside ASCII, heads the
string to sign in upper case. -/
theorem buildStringToSign_layout_witness :
    (buildStringToSign sampleEnv umlautReq).1 = "P\u00d6ST\n\n\n\n\n/p" :=
  (buildStringToSign_layout sampleEnv umlautReq).1.trans (by decide)

/-! ## Writes that leave the string to sign alone -/

theorem headerBlock_withArg (req : Request) (key value : String)
    (hk : key ∉ signHeaders) (hc : CanonicalHeaderKey key ∉ signHeaders) :
    (buildHeaderStringToSign (req.withArg key value)).1 = (buildHeaderStringToSign req).1 := by
  rw [headerBlock_eq, headerBlock_eq]
  have hkeys : (sortStrings ((req.withArg key value).Header.PeekKeys.map
        CanonicalHeaderKey)).filter (fun k => decide (k ∈ signHeaders)) =
      (sortStrings (req.Header.PeekKeys.map CanonicalHeaderKey)).filter
        (fun k => decide (k ∈ signHeaders)) := by
    apply filter_sortStrings_congr
    show (((setArg req.Header.h key value).map Prod.fst).map CanonicalHeaderKey).filter _ |>.Perm _
    rw [keys_setArg]
    split_ifs
    · exact List.Perm.refl _
    · simp [RequestHeader.PeekKeys, List.filter_append, hc]
  rw [hkeys]
  congr 1
  apply List.map_congr_left
  intro k hk1
  have hk2 : k ∈ signHeaders := by simpa using (List.mem_filter.1 hk1).2
  have hne : k ≠ key := fun h => hk (h ▸ hk2)
  show headerLine (k, peekArg (setArg req.Header.h key value) k) = _
  rw [peekArg_setArg_other _ _ hne]

theorem buildStringToSign_withArg (env : Env) (req : Request) (key value : String)
    (h1 : "Accept" ≠ key) (h2 : "Content-Md5" ≠ key) (h3 : "Date" ≠ key)
    (hk : key ∉ signHeaders) (hc : CanonicalHeaderKey key ∉ signHeaders) :
    (buildStringToSign env (req.withArg key value)).1 = (buildStringToSign env req).1 := by
  rw [stringToSign_eq, stringToSign_eq env req,
    headerBlock_withArg req key value hk hc]
  have e1 : (req.withArg key value).Header.Peek HTTPHeaderAccept =
      req.Header.Peek HTTPHeaderAccept :=
    peekArg_setArg_other req.Header.h value h1
  have e2 : (req.withArg key value).Header.Peek HTTPHeaderContentMD5 =
      req.Header.Peek HTTPHeaderContentMD5 :=
    peekArg_setArg_other req.Header.h value h2
  have e3 : (req.withArg key value).Header.Peek HTTPHeaderDate =
      req.Header.Peek HTTPHeaderDate :=
    peekArg_setArg_other req.Header.h value h3
  rw [e1, e2, e3]
  rfl

theorem buildStringToSign_snd (env : Env) (req : Request) :
    ∃ names : String, (buildStringToSign env req).2 = req.withArg "X-Ca-Signature-Headers" names :=
  ⟨_, signatureHeaders_eq req⟩

theorem buildStringToSign_again (env : Env) (req : Request) :
    (buildStringToSign env (buildStringToSign env req).2).1 = (buildStringToSign env req).1 := by
  obtain ⟨names, h⟩ := buildStringToSign_snd env req
  rw [h]
  exact buildStringToSign_withArg env req _ names (by decide) (by decide) (by decide)
    (by decide) (by decide)

theorem buildStringToSign_signature (env : Env) (req : Request) (sig : String) :
    (buildStringToSign env (req.setHeader HTTPHeaderCASignature sig)).1 =
      (buildStringToSign env req).1 :=
  buildStringToSign_withArg env req "X-Ca-Signature" (removeNewLines sig) (by decide) (by decide)
    (by decide) (by decide) (by decide)

theorem initialBasicHeader_signs (env : Env) (req : Request) (ak sk contentType : String) :
    ∃ pre : Request,
      initialBasicHeader env req ak sk contentType =
        (buildStringToSign env pre).2.setHeader HTTPHeaderCASignature
          (hmacSHA256 env (buildStringToSign env pre).1 sk) := by
  exact ⟨_, rfl⟩

/-- C4. For every request, building the string to sign again on the request the first
call left (which carries `X-Ca-Signature-Headers`), and again after `X-Ca-Signature` has
been written, gives the string of the first call; and the `X-Ca-Signature` header that
`initialBasicHeader` leaves holds the HMAC (as the header store keeps it) of the string
that `buildStringToSign` computes from the signed request. -/
theorem buildStringToSign_stable (env : Env) (req : Request) (ak sk contentType : String) :
    (buildStringToSign env (buildStringToSign env req).2).1 = (buildStringToSign env req).1 ∧
    (∀ sig : String,
      (buildStringToSign env ((buildStringToSign env req).2.setHeader HTTPHeaderCASignature sig)).1 =
        (buildStringToSign env req).1) ∧
    (initialBasicHeader env req ak sk contentType).Header.Peek HTTPHeaderCASignature =
      removeNewLines (hmacSHA256 env
        (buildStringToSign env (initialBasicHeader env req ak sk contentType)).1 sk) := by
  refine ⟨buildStringToSign_again env req, ?_, ?_⟩
  · intro sig
    rw [buildStringToSign_signature, buildStringToSign_again]
  · obtain ⟨pre, hpre⟩ := initialBasicHeader_signs env req ak sk contentType
    rw [hpre, buildStringToSign_signature, buildStringToSign_again]
    exact peekArg_setArg_same _ _ _

/-! ## The writes of `initialBasicHeader` -/

theorem initialBasicHeader_stages (env : Env) (req : Request) (ak sk contentType : String) :
    initialBasicHeader env req ak sk contentType =
      signatureHeader env
        (digestHeader env (defaultHeaders env (fixedHeaders env req ak contentType))) sk := rfl

theorem h_setHeader_contentMD5 (req : Request) (value : String) :
    (req.setHeader HTTPHeaderContentMD5 value).Header.h =
      setArg req.Header.h "Content-Md5" (removeNewLines value) := rfl

theorem peekArg_setHeader (req : Request) (key value k : String)
    (hne : k ≠ normalizeHeaderKey key) :
    peekArg (req.setHeader key value).Header.h k = peekArg req.Header.h k := by
  unfold Request.setHeader RequestHeader.Set RequestHeader.SetCanonical
  split_ifs <;> first | rfl | exact peekArg_setArg_other _ _ hne

theorem mem_keys_setHeader (req : Request) (key value k : String)
    (hne : k ≠ normalizeHeaderKey key) :
    k ∈ (req.setHeader key value).Header.PeekKeys ↔ k ∈ req.Header.PeekKeys := by
  unfold Request.setHeader RequestHeader.Set RequestHeader.SetCanonical RequestHeader.PeekKeys
  split_ifs <;> first | exact Iff.rfl | (simp only [keys_setArg]; split_ifs <;> simp [hne])

theorem contentType_setHeader (req : Request) (key value : String)
    (hne : normalizeHeaderKey key ≠ "Content-Type") :
    (req.setHeader key value).Header.contentType = req.Header.contentType := by
  unfold Request.setHeader RequestHeader.Set RequestHeader.SetCanonical
  split_ifs <;> first | rfl | contradiction

theorem SameDigestState.refl (req : Request) : SameDigestState req req :=
  ⟨rfl, rfl, Iff.rfl⟩

theorem SameDigestState.setHeader {req r : Request} (h : SameDigestState req r)
    (key value : String) (hne : "Content-Md5" ≠ normalizeHeaderKey key) :
    SameDigestState req (r.setHeader key value) :=
  ⟨h.1, (peekArg_setHeader r key value _ hne).trans h.2.1,
    (mem_keys_setHeader r key value _ hne).trans h.2.2⟩

theorem SameDigestState.ite {req r : Request} (h : SameDigestState req r) (c : Prop)
    [Decidable c] (key value : String) (hne : "Content-Md5" ≠ normalizeHeaderKey key) :
    SameDigestState req (if c then r.setHeader key value else r) := by
  split_ifs
  · exact h.setHeader key value hne
  · exact h

theorem fixedHeaders_state (env : Env) (req : Request) (ak contentType : String) :
    SameDigestState req (fixedHeaders env req ak contentType) ∧
    (fixedHeaders env req ak contentType).Header.contentType = removeNewLines contentType := by
  constructor
  · unfold fixedHeaders
    exact ((((((SameDigestState.refl req).setHeader _ _ (by decide)).setHeader _ _
      (by decide)).setHeader _ _ (by decide)).setHeader _ _ (by decide)).setHeader _ _
      (by decide)).setHeader _ _ (by decide)
  · unfold fixedHeaders
    simp only []
    rw [contentType_setHeader _ _ _ (by decide), contentType_setHeader _ _ _ (by decide),
      contentType_setHeader _ _ _ (by decide), contentType_setHeader _ _ _ (by decide),
      contentType_setHeader _ _ _ (by decide)]
    rfl

theorem defaultHeaders_state (env : Env) (req : Request) :
    SameDigestState req (defaultHeaders env req) ∧
    (defaultHeaders env req).Header.contentType = req.Header.contentType := by
  constructor
  · unfold defaultHeaders
    exact (((SameDigestState.refl req).ite _ _ _ (by decide)).ite _ _ _ (by decide)).ite _ _ _
      (by decide)
  · unfold defaultHeaders
    simp only []
    split_ifs <;>
      simp only [contentType_setHeader _ HTTPHeaderAccept _ (by decide),
        contentType_setHeader _ HTTPHeaderDate _ (by decide),
        contentType_setHeader _ HTTPHeaderUserAgent _ (by decide)]

theorem HasPrefix_removeNewLines {s p : String} (hp : noNewLines p)
    (h : HasPrefix s p = true) : HasPrefix (removeNewLines s) p = true := by
  unfold HasPrefix at h ⊢
  rw [ List.isPrefixOf_iff_prefix] at h ⊢
  obtain ⟨t, ht⟩ := h
  have hp1 := congrArg String.data (removeNewLines_of_noNewLines hp)
  refine ⟨t.map (fun c => if c = '\r' ∨ c = '\n' then ' ' else c), ?_⟩
  show _ = s.data.map _
  rw [← ht, List.map_append]
  congr 1
  exact hp1.symm

theorem digestHeader_written (env : Env) (req : Request) (b : String) (hb : req.body = some b)
    (hform : req.Header.contentType ≠ HTTPContentTypeForm)
    (hmp : HasPrefix req.Header.contentType HTTPContentTypeMultipartFormWithBoundary = false) :
    digestHeader env req = req.setHeader HTTPHeaderContentMD5 (xmd5 env b) := by
  have hct : req.Header.Peek HTTPHeaderContentType = req.Header.contentType := rfl
  unfold digestHeader
  simp only [hct, hb]
  rw [if_pos]
  exact ⟨hform, by simp [hmp]⟩

theorem digestHeader_skipped (env : Env) (req : Request)
    (h : req.body = none ∨ req.Header.contentType = HTTPContentTypeForm ∨
      HasPrefix req.Header.contentType HTTPContentTypeMultipartFormWithBoundary = true) :
    digestHeader env req = req := by
  have hct : req.Header.Peek HTTPHeaderContentType = req.Header.contentType := rfl
  unfold digestHeader
  simp only [hct]
  split
  · rename_i b hb
    rw [if_neg]
    rintro ⟨h1, h2⟩
    rcases h with h | h | h
    · rw [hb] at h
      cases h
    · exact h1 h
    · exact h2 h
  · rfl

theorem signatureHeader_md5 (env : Env) (req : Request) (sk : String) :
    (signatureHeader env req sk).Header.Peek HTTPHeaderContentMD5 =
      peekArg req.Header.h "Content-Md5" ∧
    ("Content-Md5" ∈ (signatureHeader env req sk).Header.PeekKeys ↔
      "Content-Md5" ∈ req.Header.PeekKeys) := by
  unfold signatureHeader
  simp only []
  obtain ⟨names, hn⟩ := buildStringToSign_snd env req
  rw [hn]
  constructor
  · show peekArg (_ : Request).Header.h "Content-Md5" = _
    rw [peekArg_setHeader _ _ _ _ (by decide)]
    exact peekArg_setArg_other _ _ (by decide)
  · rw [mem_keys_setHeader _ _ _ _ (by decide)]
    show _ ∈ (setArg req.Header.h _ _).map Prod.fst ↔ _
    rw [keys_setArg]
    split_ifs <;> simp [RequestHeader.PeekKeys]

/-- C5 (as amended). For every request passed to `initialBasicHeader`, with `ct` the
content type as the header store keeps it: when a body is present, `ct` is not exactly
`application/x-www-form-urlencoded` and `ct` does not start with
`multipart/form-data; boundary=`, the `Content-MD5` header is written and its value is
`xmd5` of the body; otherwise `Content-MD5` is not written (its value and its presence are
those of the request as given, so position 3 of the string to sign is empty on a request
that carried none). In particular no digest is written for a content type that is the form
type or starts with `multipart/form-data; boundary=`. -/
theorem initialBasicHeader_contentMD5 (env : Env) (req : Request)
    (ak sk contentType : String) :
    (∀ b, req.body = some b → removeNewLines contentType ≠ HTTPContentTypeForm →
      HasPrefix (removeNewLines contentType) HTTPContentTypeMultipartFormWithBoundary = false →
      (initialBasicHeader env req ak sk contentType).Header.Peek HTTPHeaderContentMD5 =
        removeNewLines (xmd5 env b) ∧
      "Content-Md5" ∈ (initialBasicHeader env req ak sk contentType).Header.PeekKeys) ∧
    ((req.body = none ∨ removeNewLines contentType = HTTPContentTypeForm ∨
      HasPrefix (removeNewLines contentType) HTTPContentTypeMultipartFormWithBoundary = true) →
      (initialBasicHeader env req ak sk contentType).Header.Peek HTTPHeaderContentMD5 =
        req.Header.Peek HTTPHeaderContentMD5 ∧
      ("Content-Md5" ∈ (initialBasicHeader env req ak sk contentType).Header.PeekKeys ↔
        "Content-Md5" ∈ req.Header.PeekKeys) ∧
      ("Content-Md5" ∉ req.Header.PeekKeys →
        (initialBasicHeader env req ak sk contentType).Header.Peek HTTPHeaderContentMD5 = "")) ∧
    (contentType = HTTPContentTypeForm → removeNewLines contentType = HTTPContentTypeForm) ∧
    (HasPrefix contentType HTTPContentTypeMultipartFormWithBoundary = true →
      HasPrefix (removeNewLines contentType) HTTPContentTypeMultipartFormWithBoundary = true) := by
  have hf := fixedHeaders_state env req ak contentType
  have hd := defaultHeaders_state env (fixedHeaders env req ak contentType)
  have hct : (defaultHeaders env (fixedHeaders env req ak contentType)).Header.contentType =
      removeNewLines contentType := hd.2.trans hf.2
  have hsig := signatureHeader_md5 env
    (digestHeader env (defaultHeaders env (fixedHeaders env req ak contentType))) sk
  rw [initialBasicHeader_stages]
  refine ⟨?_, ?_, ?_, ?_⟩
  · intro b hb hform hmp
    have hbody : (defaultHeaders env (fixedHeaders env req ak contentType)).body = some b := by
      rw [hd.1.1, hf.1.1, hb]
    have hw := digestHeader_written env _ b hbody (by rw [hct]; exact hform)
      (by rw [hct]; exact hmp)
    rw [hsig.1, hsig.2, hw]
    unfold RequestHeader.PeekKeys
    rw [h_setHeader_contentMD5]
    constructor
    · exact peekArg_setArg_same _ _ _
    · rw [keys_setArg]
      split_ifs with h
      · exact h
      · simp
  · intro h
    have hs := digestHeader_skipped env
      (defaultHeaders env (fixedHeaders env req ak contentType))
      (by rw [hct, hd.1.1, hf.1.1]; exact h)
    rw [hsig.1, hsig.2, hs]
    have e1 : peekArg (defaultHeaders env (fixedHeaders env req ak contentType)).Header.h
        "Content-Md5" = peekArg req.Header.h "Content-Md5" := hd.1.2.1.trans hf.1.2.1
    have e2 := hd.1.2.2.trans hf.1.2.2
    refine ⟨e1, e2, ?_⟩
    intro hno
    rw [e1]
    exact peekArg_of_not_mem _ _ hno
  · intro h
    subst h
    decide
  · intro h
    refine HasPrefix_removeNewLines ?_ h
    show ∀ c ∈ HTTPContentTypeMultipartFormWithBoundary.data, c ≠ '\r' ∧ c ≠ '\n'
    decide

/-- C3, counterexample. The mapping with the single parameter of empty key and empty value
has no key twice and is not empty; the claim's rendering of it is the path and `?`, while
`buildParamStringToSign` returns the path alone. -/
theorem buildParamStringToSign_emptyParam :
    (emptyParamReq.queryArgs.map Prod.fst).Nodup ∧
    emptyParamReq.queryArgs ≠ [] ∧
    emptyParamReq.path ++ "?" ++ Join (emptyParamReq.queryArgs.map renderParam) "&" = "/p?" ∧
    buildParamStringToSign emptyParamReq = "/p" := by
  decide

/-- C3, witness: the sample request has no query key twice. -/
theorem buildParamStringToSign_sorted_witness :
    (sampleReq.queryArgs.map Prod.fst).Nodup ∧
    ∃ params : List (String × String),
      params.Perm sampleReq.queryArgs ∧
      (params.map Prod.fst).Pairwise strLT ∧
      buildParamStringToSign sampleReq =
        sampleReq.path ++ (if Join (params.map renderParam) "&" = "" then ""
          else "?" ++ Join (params.map renderParam) "&") ∧
      (Join (params.map renderParam) "&" = "" ↔
        sampleReq.queryArgs = [] ∨ sampleReq.queryArgs = [("", "")]) ∧
      (sampleReq.queryArgs = [] → buildParamStringToSign sampleReq = sampleReq.path) :=
  ⟨by decide, buildParamStringToSign_sorted sampleReq (by decide)⟩

/-- C2, counterexample. A header stored under `x-ca-key` with value `k` has the signed
canonical name `X-Ca-Key`, yet its line carries the empty value; and of two headers stored
under `X-Ca-Key`, with values `a` and `b`, the block holds the line of the first twice
and no line for the second. -/
theorem buildHeaderStringToSign_stored_value :
    CanonicalHeaderKey "x-ca-key" = "X-Ca-Key" ∧
    lowerCaseReq.Header.h.filter (fun e => decide (CanonicalHeaderKey e.1 ∈ signHeaders)) =
      [("x-ca-key", "k")] ∧
    (buildHeaderStringToSign lowerCaseReq).1 = "X-Ca-Key:\n" ∧
    (buildHeaderStringToSign lowerCaseReq).1 ≠ "X-Ca-Key:k\n" ∧
    (twiceReq.Header.h.filter (fun e => decide (CanonicalHeaderKey e.1 ∈ signHeaders))).map
      headerLine = ["X-Ca-Key:a\n", "X-Ca-Key:b\n"] ∧
    (buildHeaderStringToSign twiceReq).1 = "X-Ca-Key:a\nX-Ca-Key:a\n" := by
  decide

/-- C2, witness: the sample request stores each of its three signed headers once and
under the canonical name, next to a name in lower case and a name stored twice. -/
theorem buildHeaderStringToSign_lines_witness :
    sampleReq.Header.SignedOnce ∧
    ¬ sampleReq.Header.WF ∧
    ∃ names : List String,
      names.Perm ((sampleReq.Header.PeekKeys.map CanonicalHeaderKey).filter
        (fun k => decide (k ∈ signHeaders))) ∧
      names.Sorted strLE ∧
      (buildHeaderStringToSign sampleReq).1 =
        concat (names.map fun n => headerLine (n, sampleReq.Header.Peek n)) ∧
      (buildHeaderStringToSign sampleReq).2.Header.Peek HTTPHeaderCASignatureHeaders =
        Join names defaultSep ∧
      (sampleReq.Header.SignedOnce →
        names.Pairwise strLT ∧
        (names.map fun n => (n, sampleReq.Header.Peek n)).Perm
          (sampleReq.Header.h.filter
            (fun e => decide (CanonicalHeaderKey e.1 ∈ signHeaders)))) :=
  ⟨by decide, by decide, (buildHeaderStringToSign_lines sampleReq).1⟩

/-- C5, counterexample. The content type `multipart/form-data` starts with the prefix by
which `setBody` picks the multipart case, and `setBody` stores the buffer as the body; on
that request `initialBasicHeader` writes `Content-MD5`, the digest of the body. -/
theorem initialBasicHeader_multipart_digest :
    HasPrefix "multipart/form-data" HTTPContentTypeMultipartForm = true ∧
    setBody sampleEnv Request.empty "multipart/form-data" (some (.buffer "x")) =
      (Request.empty.SetBody "x", none) ∧
    "Content-Md5" ∉ (Request.empty.SetBody "x").Header.PeekKeys ∧
    "Content-Md5" ∈ (initialBasicHeader sampleEnv (Request.empty.SetBody "x") "ak" "sk"
      "multipart/form-data").Header.PeekKeys ∧
    (initialBasicHeader sampleEnv (Request.empty.SetBody "x") "ak" "sk"
      "multipart/form-data").Header.Peek HTTPHeaderContentMD5 = xmd5 sampleEnv "x" ∧
    xmd5 sampleEnv "x" ≠ "" := by
  decide

/-! ## The envelope -/

/-- C6. For every response body that parses as an envelope (the transport having answered,
and the JSON encoder not failing on the decoded `data`, which `json.Marshal` never does on
a value made by `json.Unmarshal`), `doApi` returns an error exactly when the envelope's
code is not `"200"`; then the error is `errors.New` of the envelope's message and no
payload is returned, whatever the success flag, the data and the HTTP status are. -/
theorem doApi_error_iff (env : Env) (req : Request) (resp : Response) (res : ApiResult)
    (hs : env.send req = .ok resp) (hu : env.unmarshal resp.body = .ok res)
    (hm : ∃ b, env.marshalData res.Data = .ok b) :
    ((doApi env req).err ≠ none ↔ res.Code ≠ "200") ∧
    (res.Code ≠ "200" →
      (doApi env req).err = some (.errorsNew res.Message) ∧ (doApi env req).data = none) := by
  obtain ⟨b, hb⟩ := hm
  unfold doApi
  simp only [hs, hu]
  by_cases hc : res.Code = "200"
  · simp only [hc, ne_eq, not_true_eq_false, if_false]
    cases hd : res.Data <;> simp [hd] at hb ⊢ <;> simp [hb]
  · simp [hc]

/-- C6, witness: the sample transport answers the path `/v1/bad` with status 200 and the
envelope of code `"400"`. -/
theorem doApi_error_iff_witness :
    ((doApi sampleEnv badPathReq).err ≠ none ↔ "400" ≠ "200") ∧
    (("400" : String) ≠ "200" →
      (doApi sampleEnv badPathReq).err = some (.errorsNew "bad request") ∧
      (doApi sampleEnv badPathReq).data = none) :=
  doApi_error_iff sampleEnv badPathReq ⟨200, envelopeBad⟩ ⟨"400", "bad request", .null, false⟩
    rfl rfl ⟨"null", rfl⟩

/-- C7. For every response envelope whose code is `"200"`: when `data` is absent or null,
`doApi` returns no payload and no error; when `data` is present, `doApi` returns, with no
error, the bytes the JSON encoder gives for the data value. -/
theorem doApi_payload (env : Env) (req : Request) (resp : Response) (res : ApiResult)
    (hs : env.send req = .ok resp) (hu : env.unmarshal resp.body = .ok res)
    (hc : res.Code = "200") :
    (res.Data = .null → (doApi env req).data = none ∧ (doApi env req).err = none) ∧
    (∀ b, res.Data ≠ .null → env.marshalData res.Data = .ok b →
      (doApi env req).data = some b ∧ (doApi env req).err = none) := by
  unfold doApi
  simp only [hs, hu, hc, ne_eq, not_true_eq_false, if_false]
  constructor
  · intro hd
    simp [hd]
  · intro b hd hb
    cases hd1 : res.Data <;> simp [hd1] at hd hb ⊢ <;> simp [hb]

/-- C7, witness: for the envelope `{"code":"200","data":{"x":1},"success":true}` the
payload is the bytes of `{"x":1}`. -/
theorem doApi_payload_witness :
    (doApi sampleEnv sampleReq).data = some "\x7b\"x\":1\x7d" ∧
    (doApi sampleEnv sampleReq).err = none :=
  (doApi_payload sampleEnv sampleReq ⟨200, envelopeOk⟩ ⟨"200", "", dataX1, true⟩
    rfl rfl rfl).2 "\x7b\"x\":1\x7d" (by simp [dataX1]) rfl

/-! ## The body and the call -/

theorem HasPrefix_multipart_ne {contentType : String}
    (h : HasPrefix contentType HTTPContentTypeMultipartForm = true) :
    contentType ≠ HTTPContentTypeJson ∧ contentType ≠ HTTPContentTypeForm := by
  constructor
  · intro hc
    rw [hc] at h
    exact absurd h (by decide)
  · intro hc
    rw [hc] at h
    exact absurd h (by decide)

/-- C10. For every request and every body, present or not: a content type that is not
exactly `application/json`, not exactly `application/x-www-form-urlencoded` and does not
start with `multipart/form-data` makes `setBody` fail with the error whose message is
`content type not support: ` followed by that content type, the request left as it was;
the four content types named in the claim are such types. For `application/json` `setBody`
succeeds and sets the body to the bytes of `json.Marshal`, for the form type and a string
to the bytes of the string, for a type starting with `multipart/form-data` and a
`bytes.Buffer` to the bytes of the buffer. -/
theorem setBody_dispatch (env : Env) (req : Request) (contentType : String) :
    (contentType ≠ HTTPContentTypeJson → contentType ≠ HTTPContentTypeForm →
      HasPrefix contentType HTTPContentTypeMultipartForm = false →
      ∀ body, setBody env req contentType body =
        (req, some (.errorsNew ("content type not support: " ++ contentType)))) ∧
    (∀ ct ∈ [HTTPContentTypeStream, HTTPContentTypeXml, HTTPContentTypeText,
        "application/json; charset=utf-8"],
      ct ≠ HTTPContentTypeJson ∧ ct ≠ HTTPContentTypeForm ∧
      HasPrefix ct HTTPContentTypeMultipartForm = false) ∧
    (∀ body b, env.marshalBody body = .ok b →
      setBody env req HTTPContentTypeJson body = (req.SetBody b, none)) ∧
    (∀ s, setBody env req HTTPContentTypeForm (some (.str s)) = (req.SetBody s, none)) ∧
    (HasPrefix contentType HTTPContentTypeMultipartForm = true →
      ∀ b, setBody env req contentType (some (.buffer b)) = (req.SetBody b, none)) := by
  refine ⟨?_, by decide, ?_, ?_, ?_⟩
  · intro h1 h2 h3 body
    simp [setBody, h1, h2, h3]
  · intro body b hb
    simp [setBody, hb]
  · intro s
    have h : HTTPContentTypeForm ≠ HTTPContentTypeJson := by decide
    simp [setBody, h]
  · intro h b
    obtain ⟨h1, h2⟩ := HasPrefix_multipart_ne h
    simp [setBody, h1, h2, h]

theorem setBody_form_mismatch (env : Env) (req : Request) (body : GoValue)
    (hns : ∀ s, body ≠ .str s) :
    setBody env req HTTPContentTypeForm (some body) =
      (req, some (.errorsNew
        "when contenType is application/x-www-form-urlencoded, body content type must be str")) := by
  have h : HTTPContentTypeForm ≠ HTTPContentTypeJson := by decide
  have hmsg : "when contenType is " ++ HTTPContentTypeForm ++
      ", body content type must be str" =
      "when contenType is application/x-www-form-urlencoded, body content type must be str" := by
    decide
  cases body with
  | str s => exact absurd rfl (hns s)
  | buffer b => simp [setBody, h, hmsg]
  | other d => simp [setBody, h, hmsg]

/-- C8. For every call whose content type is exactly `application/x-www-form-urlencoded`
and whose body is present but no string, `setBody` fails with the error that names the
content type and leaves the request as it was (no body set), and `Do` returns that error
with no payload, having emitted the start event only: the transport is never invoked. -/
theorem Do_form_mismatch (env : Env) (a : ApiReq) (body : GoValue)
    (hct : a.ContentType = HTTPContentTypeForm) (hb : a.Body = some body)
    (hns : ∀ s, body ≠ .str s) :
    (∀ req, setBody env req a.ContentType a.Body =
      (req, some (.errorsNew
        "when contenType is application/x-www-form-urlencoded, body content type must be str"))) ∧
    (Do env a).err = some (.errorsNew
      "when contenType is application/x-www-form-urlencoded, body content type must be str") ∧
    (Do env a).data = none ∧
    (Do env a).trace = [Event.start a.ctx.isSome a.Method a.Path a.Body] ∧
    (∀ req, Event.transport req ∉ (Do env a).trace) := by
  have hset : ∀ req, setBody env req a.ContentType a.Body =
      (req, some (.errorsNew
        "when contenType is application/x-www-form-urlencoded, body content type must be str")) := by
    intro req
    rw [hct, hb]
    exact setBody_form_mismatch env req body hns
  have hne : a.Body ≠ none := by
    rw [hb]
    exact Option.some_ne_none body
  have hdo : Do env a = Outcome.mk none (some (.errorsNew
      "when contenType is application/x-www-form-urlencoded, body content type must be str"))
      [Event.start a.ctx.isSome a.Method a.Path a.Body] := by
    unfold Do assemble
    simp only [hne, ne_eq, not_false_eq_true, if_true, hset]
  refine ⟨hset, ?_, ?_, ?_, ?_⟩
  · rw [hdo]
  · rw [hdo]
  · rw [hdo]
  · intro req
    rw [hdo]
    simp

/-- C8, witness: the sample call has the form content type and the body `42`, no string. -/
theorem Do_form_mismatch_witness :
    (Do sampleEnv formCall).err = some (.errorsNew
      "when contenType is application/x-www-form-urlencoded, body content type must be str") ∧
    (∀ req, Event.transport req ∉ (Do sampleEnv formCall).trace) :=
  ⟨(Do_form_mismatch sampleEnv formCall (.other "42") rfl rfl (by intro s h; cases h)).2.1,
   (Do_form_mismatch sampleEnv formCall (.other "42") rfl rfl (by intro s h; cases h)).2.2.2.2⟩

/-- C9, the failing input evaluated. On the sample call, whose body `setBody` rejects, `Do`
returns an error and its events are the start event alone: no failure event follows. -/
theorem Do_rejected_body_trace :
    (Do sampleEnv formCall).err = some (.errorsNew
      "when contenType is application/x-www-form-urlencoded, body content type must be str") ∧
    (Do sampleEnv formCall).trace =
      [Event.start false "POST" "/v1/items" (some (.other "42"))] := by
  decide

/-! ## The header store of the request `Do` signs -/

theorem WF_setArg {hd : RequestHeader} (hwf : hd.WF) (k v : String)
    (hk : CanonicalHeaderKey k = k) :
    RequestHeader.WF { hd with h := setArg hd.h k v } := by
  unfold RequestHeader.WF RequestHeader.PeekKeys
  simp only [keys_setArg]
  split_ifs with hmem
  · exact hwf
  · constructor
    · rw [List.nodup_append]
      refine ⟨hwf.1, List.nodup_singleton k, ?_⟩
      intro x hx hx1
      rw [List.mem_singleton] at hx1
      exact hmem (hx1 ▸ hx)
    · intro x hx
      rcases List.mem_append.1 hx with h | h
      · exact hwf.2 x h
      · rw [List.mem_singleton] at h
        rw [h]
        exact hk

theorem WF_setHeader {req : Request} (hwf : req.Header.WF) (key value : String)
    (hk : CanonicalHeaderKey (normalizeHeaderKey key) = normalizeHeaderKey key) :
    (req.setHeader key value).Header.WF := by
  unfold Request.setHeader RequestHeader.Set RequestHeader.SetCanonical
  split_ifs <;> first | exact hwf | exact WF_setArg hwf _ _ hk

theorem WF_ite {req : Request} (hwf : req.Header.WF) (c : Prop) [Decidable c]
    (key value : String)
    (hk : CanonicalHeaderKey (normalizeHeaderKey key) = normalizeHeaderKey key) :
    (if c then req.setHeader key value else req).Header.WF := by
  split_ifs
  · exact WF_setHeader hwf key value hk
  · exact hwf

theorem WF_fixedHeaders (env : Env) {req : Request} (hwf : req.Header.WF)
    (ak contentType : String) : (fixedHeaders env req ak contentType).Header.WF := by
  unfold fixedHeaders
  exact WF_setHeader (WF_setHeader (WF_setHeader (WF_setHeader (WF_setHeader
    (WF_setHeader hwf _ _ (by decide)) _ _ (by decide)) _ _ (by decide)) _ _ (by decide))
    _ _ (by decide)) _ _ (by decide)

theorem WF_defaultHeaders (env : Env) {req : Request} (hwf : req.Header.WF) :
    (defaultHeaders env req).Header.WF := by
  unfold defaultHeaders
  exact WF_ite (WF_ite (WF_ite hwf _ _ _ (by decide)) _ _ _ (by decide)) _ _ _ (by decide)

theorem WF_digestHeader (env : Env) {req : Request} (hwf : req.Header.WF) :
    (digestHeader env req).Header.WF := by
  unfold digestHeader
  simp only []
  split
  · exact WF_ite hwf _ _ _ (by decide)
  · exact hwf

theorem setBody_Header (env : Env) (req : Request) (contentType : String)
    (body : Option GoValue) : (setBody env req contentType body).1.Header = req.Header := by
  unfold setBody
  split_ifs
  · rfl
  · split <;> rfl
  · split <;> rfl
  · rfl

theorem assemble_signs_WF (env : Env) (a : ApiReq) :
    (assemble env a).2 = none →
    ∃ pre : Request,
      (assemble env a).1 = signatureHeader env pre a.AppSecret ∧ pre.Header.WF := by
  intro h
  unfold assemble at h ⊢
  simp only [] at h ⊢
  split at h
  · cases h
  · rename_i hnone
    simp only [hnone]
    refine ⟨_, rfl, ?_⟩
    apply WF_digestHeader
    apply WF_defaultHeaders
    apply WF_fixedHeaders
    show RequestHeader.WF (RequestHeader.SetContentType _ _)
    unfold RequestHeader.SetContentType RequestHeader.WF RequestHeader.PeekKeys
    simp only []
    split_ifs
    · rw [setBody_Header]
      exact ⟨List.nodup_nil, fun k hk => absurd hk (List.not_mem_nil k)⟩
    · exact ⟨List.nodup_nil, fun k hk => absurd hk (List.not_mem_nil k)⟩

/-- Whenever `Do` gets as far as signing, the request whose string is built and signed has
a header store that is a mapping in canonical form, so every signed header is stored once
and under its canonical name: the header block of every request the program signs holds
the own value of each signed header. -/
theorem assemble_signs_canonical (env : Env) (a : ApiReq) :
    (assemble env a).2 = none →
    ∃ pre : Request,
      (assemble env a).1 = signatureHeader env pre a.AppSecret ∧
      pre.Header.WF ∧ pre.Header.SignedOnce := by
  intro h
  obtain ⟨pre, h1, h2⟩ := assemble_signs_WF env a h
  exact ⟨pre, h1, h2, SignedOnce_of_WF h2⟩

/-- The sample JSON call gets as far as signing. -/
theorem assemble_signs_canonical_witness :
    ∃ pre : Request,
      (assemble sampleEnv jsonCall).1 = signatureHeader sampleEnv pre jsonCall.AppSecret ∧
      pre.Header.WF ∧ pre.Header.SignedOnce :=
  assemble_signs_canonical sampleEnv jsonCall (by decide)

/-! ## The events of a call -/

theorem doApi_trace (env : Env) (req : Request) : (doApi env req).trace = [.transport req] := by
  unfold doApi
  split
  · rfl
  · split
    · rfl
    · split_ifs
      · rfl
      · split
        · rfl
        · split <;> rfl

/-- Every call of `Do` on which `setBody` raises no error emits exactly three events: the
start event, the invocation of the transport, and one terminal event with method, path and
elapsed milliseconds, which is the failure event carrying the error when `Do` returns an
error and the success event otherwise. -/
theorem Do_trace_assembled (env : Env) (a : ApiReq) (req : Request)
    (h : assemble env a = (req, none)) :
    ((Do env a).err = (doApi env req).err) ∧
    (∀ err, (doApi env req).err = some err →
      (Do env a).trace =
        [Event.start a.ctx.isSome a.Method a.Path a.Body, Event.transport req,
         Event.failed a.ctx.isSome a.Method a.Path (env.elapsed.tdiv 1000000) err]) ∧
    ((doApi env req).err = none →
      (Do env a).trace =
        [Event.start a.ctx.isSome a.Method a.Path a.Body, Event.transport req,
         Event.success a.ctx.isSome a.Method a.Path (env.elapsed.tdiv 1000000)
           ((doApi env req).data.getD "")]) := by
  unfold Do
  simp only [h, doApi_trace]
  refine ⟨?_, ?_, ?_⟩
  · cases (doApi env req).err <;> rfl
  · intro err he
    simp [he]
  · intro he
    simp [he]

/-- The sample call with a JSON body: `setBody` accepts it. -/
theorem Do_trace_assembled_witness :
    (Do sampleEnv jsonCall).err =
      (doApi sampleEnv
        (assemble sampleEnv jsonCall).1).err :=
  (Do_trace_assembled sampleEnv jsonCall
    (assemble sampleEnv jsonCall).1
    (Prod.ext rfl (by decide))).1

end Sdk
